import Mathlib

/-!
Shallow embedding of the viewport/content core of the `grain` terminal viewer
(src/main.rs). Lines are modelled as lists of characters, durations and
instants as natural numbers of milliseconds, and the Rust `u16` scroll
arithmetic as natural-number arithmetic with explicit reductions modulo 2^16.
-/

namespace Grain

/-- Escape character ESC (Rust literal \x1b) that opens a styling run. -/
def escChar : Char := Char.ofNat 27

/-- State-machine core of the Rust function visual_width (main.rs:134-154):
the Bool is the in_escape flag. -/
def widthAux : Bool → List Char → Nat
  | _, [] => 0
  | true, c :: cs => if c = 'm' then widthAux false cs else widthAux true cs
  | false, c :: cs => if c = escChar then widthAux true cs else widthAux false cs + 1

/-- Rust visual_width (main.rs:134-154): zero-width-aware visual length. -/
def visual_width (line : List Char) : Nat := widthAux false line

/-- Loop body of Rust crop_line_for_scroll (main.rs:156-195): arguments are
the remaining characters, the in_escape flag, the escape_buffer, the
visual_pos counter and the accumulated result. -/
def cropAux (col : Nat) : List Char → Bool → List Char → Nat → List Char → List Char
  | [], true, buf, _, acc => acc ++ buf
  | [], false, _, _, acc => acc
  | c :: cs, true, buf, pos, acc =>
      if c = 'm' then cropAux col cs false [] pos (acc ++ buf ++ [c])
      else cropAux col cs true (buf ++ [c]) pos acc
  | c :: cs, false, buf, pos, acc =>
      if c = escChar then cropAux col cs true [c] pos acc
      else if col ≤ pos then cropAux col cs false buf (pos + 1) (acc ++ [c])
      else cropAux col cs false buf (pos + 1) acc

/-- Rust crop_line_for_scroll (main.rs:156-195): run the loop, then apply
the single-space fallback when the result is empty but the line was not. -/
def crop_line_for_scroll (line : List Char) (scroll_x : Nat) : List Char :=
  if scroll_x = 0 then line
  else if cropAux scroll_x line false [] 0 [] = [] ∧ line ≠ [] then [' ']
  else cropAux scroll_x line false [] 0 []

/-- Rust struct DisplayState (main.rs:297-302); last_update is an Instant,
modelled as milliseconds since an arbitrary origin. -/
structure DisplayState where
  scroll_y : Nat
  scroll_x : Nat
  content : List (List Char)
  last_update : Nat
deriving DecidableEq

/-- Rust expression new_content.len().saturating_sub(height as usize) as u16
(main.rs:316 and main.rs:362): saturating subtraction in usize followed by a
truncating cast to u16. -/
def max_scroll_y_code (content : List (List Char)) (height : Nat) : Nat :=
  (content.length - height) % 65536

/-- Rust expression content.iter().map(|l| visual_width(l) as u16).max()
.unwrap_or(0).saturating_sub(width).max(0) (main.rs:319-325 and
main.rs:363-369): each line width is truncated to u16 before the maximum. -/
def max_scroll_x_code (content : List (List Char)) (width : Nat) : Nat :=
  ((content.map (fun l => visual_width l % 65536)).foldr Nat.max 0) - width

/-- Vertical bound exactly as the spec §3 states it:
max(0, content_line_count − visible_height), in unbounded arithmetic. -/
def max_scroll_y_spec (content : List (List Char)) (height : Nat) : Nat :=
  content.length - height

/-- Horizontal bound exactly as the spec §3 states it:
max(0, max_visual_width_over_all_lines − visible_width), in unbounded
arithmetic. -/
def max_scroll_x_spec (content : List (List Char)) (width : Nat) : Nat :=
  ((content.map visual_width).foldr Nat.max 0) - width

/-- Rust DisplayState::update_content (main.rs:314-330). -/
def update_content (s : DisplayState) (new_content : List (List Char))
    (width height : Nat) : DisplayState :=
  if new_content = s.content then s
  else
    { s with
      scroll_y := min s.scroll_y (max_scroll_y_code new_content height),
      scroll_x := min s.scroll_x (max_scroll_x_code new_content width),
      content := new_content }

/-- Placeholder line rendered when the visible slice is empty (main.rs:337). -/
def noContentLine : List Char := "没有内容可显示".data

/-- Rust DisplayState::get_display_text (main.rs:332-350); the width
parameter is unused in the source as well. -/
def get_display_text (s : DisplayState) (height : Nat) : List (List Char) :=
  let start_y := s.scroll_y
  let end_y := min (start_y + height) s.content.length
  if end_y ≤ start_y then [noContentLine]
  else
    ((s.content.drop start_y).take (end_y - start_y)).map
      (fun line => crop_line_for_scroll line s.scroll_x)

/-- Key codes that can reach DisplayState::handle_key_event; char covers
printable keys such as q, and other covers every remaining key. -/
inductive KeyCode where
  | up | down | left | right | pageUp | pageDown | home | end_
  | char (c : Char)
  | other
deriving DecidableEq

/-- Crossterm key event as consumed by handle_key_event: code, CONTROL
modifier flag, and whether the event kind is Press. -/
structure KeyEv where
  code : KeyCode
  ctrl : Bool
  press : Bool
deriving DecidableEq

/-- Rust DisplayState::handle_key_event (main.rs:352-419). Additions on u16
scroll offsets are reduced modulo 2^16, saturating subtraction is Nat
subtraction. -/
def handle_key_event (s : DisplayState) (ev : KeyEv) (width height : Nat) :
    Bool × DisplayState :=
  if ev.press = false then (false, s)
  else
    match ev.code with
    | .up => (true, { s with scroll_y := s.scroll_y - 1 })
    | .down =>
        (true, { s with scroll_y := min ((s.scroll_y + 1) % 65536) (max_scroll_y_code s.content height) })
    | .pageUp => (true, { s with scroll_y := s.scroll_y - height })
    | .pageDown =>
        (true, { s with scroll_y := min ((s.scroll_y + height) % 65536) (max_scroll_y_code s.content height) })
    | .left => (true, { s with scroll_x := s.scroll_x - 1 })
    | .right =>
        (true, { s with scroll_x := min ((s.scroll_x + 1) % 65536) (max_scroll_x_code s.content width) })
    | .home =>
        if ev.ctrl then (true, { s with scroll_y := 0 })
        else (true, { s with scroll_x := 0 })
    | .end_ =>
        if ev.ctrl then (true, { s with scroll_y := max_scroll_y_code s.content height })
        else (true, { s with scroll_x := max_scroll_x_code s.content width })
    | _ => (false, s)

/-- A key event is a recognized navigation command: a Press of one of the
ten navigation keys (Home and End each in plain and CONTROL form). -/
def isRecognized (ev : KeyEv) : Bool :=
  ev.press &&
    (match ev.code with
     | .up | .down | .left | .right | .pageUp | .pageDown | .home | .end_ => true
     | _ => false)

/-- Rust DisplayState::should_update (main.rs:421-431): the first component
is the returned Bool, the second the updated state. -/
def should_update (s : DisplayState) (now interval : Nat) : Bool × DisplayState :=
  if interval ≤ now - s.last_update then
    (true, { s with last_update := s.last_update + interval })
  else (false, s)

/-- Repeated due-checks of should_update at the given sequence of instants. -/
def run_checks (s : DisplayState) (interval : Nat) : List Nat → DisplayState
  | [] => s
  | t :: ts => run_checks (should_update s t interval).2 interval ts

/-- Number of due-checks in run_checks that return true. -/
def count_due (s : DisplayState) (interval : Nat) : List Nat → Nat
  | [] => 0
  | t :: ts =>
      (if (should_update s t interval).1 then 1 else 0) +
        count_due (should_update s t interval).2 interval ts

/-- Rust Duration::checked_sub over milliseconds. -/
def checked_sub (a b : Nat) : Option Nat := if b ≤ a then some (a - b) else none

/-- Poll-timeout computation of App::run (main.rs:604-607):
interval.checked_sub(now − last_update).unwrap_or(100ms).min(100ms). -/
def poll_timeout (interval now last_update : Nat) : Nat :=
  ((checked_sub interval (now - last_update)).getD 100).min 100

/-- Timeout formula exactly as the spec §4.4 states it:
min(cap, max(0, interval − (now − referenceInstant))). -/
def poll_timeout_spec (interval now last_update cap : Nat) : Nat :=
  min cap (interval - (now - last_update))

/-- A line is blank in the sense of Rust line.trim().is_empty(). -/
def isBlank (line : List Char) : Bool := line.all (fun c => c.isWhitespace)

/-- Red styling wrapper applied to stderr lines (main.rs:248). -/
def wrapRed (line : List Char) : List Char :=
  (escChar :: "[31m".data) ++ line ++ (escChar :: "[0m".data)

/-- Fallback line for a command that produced no output (main.rs:254). -/
def cmdNoOutput : List Char := "命令无输出".data

/-- Command branch of Rust read_content (main.rs:233-257), starting from the
decoded stdout and stderr line sequences: push non-blank stdout lines, then
non-blank stderr lines wrapped in red, then fall back if nothing remains. -/
def read_content_cmd (stdoutLines stderrLines : List (List Char)) : List (List Char) :=
  if stderrLines.foldl (fun acc line => if isBlank line then acc else acc ++ [wrapRed line])
      (stdoutLines.foldl (fun acc line => if isBlank line then acc else acc ++ [line]) []) = []
  then [cmdNoOutput]
  else stderrLines.foldl (fun acc line => if isBlank line then acc else acc ++ [wrapRed line])
      (stdoutLines.foldl (fun acc line => if isBlank line then acc else acc ++ [line]) [])

/-- Invariant of spec §3: both scroll offsets are within the bounds computed
from the current content and the current visible window. -/
def inBounds (st : DisplayState) (width height : Nat) : Prop :=
  st.scroll_y ≤ max_scroll_y_spec st.content height ∧
    st.scroll_x ≤ max_scroll_x_spec st.content width

instance (st : DisplayState) (width height : Nat) : Decidable (inBounds st width height) :=
  inferInstanceAs (Decidable (And _ _))

/-- One observable step of the main loop: a key event, a content
replacement, or a change of the visible window size. -/
inductive Step where
  | nav (ev : KeyEv)
  | replace (c : List (List Char))
  | resize (width height : Nat)

/-- World state: the display state plus the current visible window. -/
structure World where
  st : DisplayState
  width : Nat
  height : Nat

/-- Effect of one step on the world, as the main loop performs it. -/
def stepWorld (world : World) : Step → World
  | .nav ev => { world with st := (handle_key_event world.st ev world.width world.height).2 }
  | .replace c => { world with st := update_content world.st c world.width world.height }
  | .resize w h => { world with width := w, height := h }

/-- Run a sequence of steps. -/
def runWorld (world : World) (steps : List Step) : World :=
  steps.foldl stepWorld world

/-- True for steps that do not change the window size. -/
def noResizeB : Step → Bool
  | .resize _ _ => false
  | _ => true

/-! Equation lemmas for the two escape-sequence state machines. -/

theorem widthAux_nil (b : Bool) : widthAux b [] = 0 := by cases b <;> rfl

theorem widthAux_true_cons (c : Char) (cs : List Char) :
    widthAux true (c :: cs) = if c = 'm' then widthAux false cs else widthAux true cs := rfl

theorem widthAux_false_cons (c : Char) (cs : List Char) :
    widthAux false (c :: cs) = if c = escChar then widthAux true cs else widthAux false cs + 1 := rfl

theorem cropAux_nil (col : Nat) (b : Bool) (buf : List Char) (pos : Nat) (acc : List Char) :
    cropAux col [] b buf pos acc = if b then acc ++ buf else acc := by cases b <;> rfl

theorem cropAux_cons_true (col : Nat) (c : Char) (cs buf : List Char) (pos : Nat)
    (acc : List Char) :
    cropAux col (c :: cs) true buf pos acc =
      if c = 'm' then cropAux col cs false [] pos (acc ++ buf ++ [c])
      else cropAux col cs true (buf ++ [c]) pos acc := rfl

theorem cropAux_cons_false (col : Nat) (c : Char) (cs buf : List Char) (pos : Nat)
    (acc : List Char) :
    cropAux col (c :: cs) false buf pos acc =
      if c = escChar then cropAux col cs true [c] pos acc
      else if col ≤ pos then cropAux col cs false buf (pos + 1) (acc ++ [c])
      else cropAux col cs false buf (pos + 1) acc := rfl

/-! Text metrics lemmas. -/

theorem widthAux_true_append_of_no_m (r : List Char) (h : 'm' ∉ r) (t : List Char) :
    widthAux true (r ++ t) = widthAux true t := by
  induction r with
  | nil => rfl
  | cons c cs ih =>
      rw [List.cons_append, widthAux_true_cons,
        if_neg (fun hcm : c = 'm' => h (hcm ▸ List.mem_cons_self c cs))]
      exact ih (fun hm => h (List.mem_cons_of_mem c hm))

theorem widthAux_false_no_escape (l : List Char) (h : escChar ∉ l) :
    widthAux false l = l.length := by
  induction l with
  | nil => rfl
  | cons c cs ih =>
      rw [widthAux_false_cons,
        if_neg (fun hce : c = escChar => h (hce ▸ List.mem_cons_self c cs)),
        ih (fun hm => h (List.mem_cons_of_mem c hm)), List.length_cons]

theorem cropAux_no_escape (col : Nat) (cs : List Char) :
    ∀ (buf : List Char) (pos : Nat) (acc : List Char), escChar ∉ cs →
      cropAux col cs false buf pos acc = acc ++ cs.drop (col - pos) := by
  induction cs with
  | nil => intro buf pos acc _; simp [cropAux_nil]
  | cons c cs ih =>
      intro buf pos acc h
      have hc : ¬ (c = escChar) := fun he => h (he ▸ List.mem_cons_self c cs)
      have hcs : escChar ∉ cs := fun hm => h (List.mem_cons_of_mem c hm)
      rw [cropAux_cons_false, if_neg hc]
      by_cases hp : col ≤ pos
      · rw [if_pos hp, ih _ _ _ hcs]
        have h1 : col - pos = 0 := Nat.sub_eq_zero_of_le hp
        have h2 : col - (pos + 1) = 0 := Nat.sub_eq_zero_of_le (Nat.le_succ_of_le hp)
        simp [h1, h2]
      · rw [if_neg hp, ih _ _ _ hcs]
        have h1 : col - pos = (col - (pos + 1)) + 1 := by omega
        rw [h1, List.drop_succ_cons]

theorem cropAux_width_eq_zero (col : Nat) (cs : List Char) :
    ∀ (inEsc : Bool) (buf : List Char) (pos : Nat) (acc : List Char),
      (∀ t, widthAux false (acc ++ t) = widthAux false t) →
      (inEsc = true → ∃ r, buf = escChar :: r ∧ 'm' ∉ r) →
      pos + widthAux inEsc cs ≤ col →
      widthAux false (cropAux col cs inEsc buf pos acc) = 0 := by
  induction cs with
  | nil =>
      intro inEsc buf pos acc hacc hbuf _
      cases inEsc with
      | false =>
          rw [cropAux_nil]
          simpa using hacc []
      | true =>
          obtain ⟨r, hb, hm⟩ := hbuf rfl
          rw [cropAux_nil]
          simp only [if_pos]
          subst hb
          rw [hacc (escChar :: r), widthAux_false_cons, if_pos rfl]
          simpa using widthAux_true_append_of_no_m r hm []
  | cons c cs ih =>
      intro inEsc buf pos acc hacc hbuf hle
      cases inEsc with
      | true =>
          obtain ⟨r, hb, hm⟩ := hbuf rfl
          rw [cropAux_cons_true]
          by_cases hcm : c = 'm'
          · rw [if_pos hcm]
            apply ih false [] pos _ ?_ (fun hh => Bool.noConfusion hh) ?_
            · intro t
              subst hb
              subst hcm
              have hassoc : acc ++ escChar :: r ++ ['m'] ++ t = acc ++ (escChar :: (r ++ 'm' :: t)) := by
                simp
              rw [hassoc, hacc, widthAux_false_cons, if_pos rfl,
                widthAux_true_append_of_no_m r hm, widthAux_true_cons, if_pos rfl]
            · have : widthAux true (c :: cs) = widthAux false cs := by
                rw [widthAux_true_cons, if_pos hcm]
              omega
          · rw [if_neg hcm]
            apply ih true (buf ++ [c]) pos acc hacc ?_ ?_
            · intro _
              refine ⟨r ++ [c], by rw [hb, List.cons_append], ?_⟩
              intro hmem
              rcases List.mem_append.1 hmem with h1 | h1
              · exact hm h1
              · exact hcm (List.mem_singleton.1 h1).symm
            · have : widthAux true (c :: cs) = widthAux true cs := by
                rw [widthAux_true_cons, if_neg hcm]
              omega
      | false =>
          rw [cropAux_cons_false]
          by_cases hce : c = escChar
          · rw [if_pos hce]
            apply ih true [c] pos acc hacc ?_ ?_
            · intro _; exact ⟨[], by rw [hce], by simp⟩
            · have : widthAux false (c :: cs) = widthAux true cs := by
                rw [widthAux_false_cons, if_pos hce]
              omega
          · rw [if_neg hce]
            have hw : widthAux false (c :: cs) = widthAux false cs + 1 := by
              rw [widthAux_false_cons, if_neg hce]
            have hpos : ¬ (col ≤ pos) := by omega
            rw [if_neg hpos]
            exact ih false buf (pos + 1) acc hacc (fun hh => Bool.noConfusion hh) (by omega)

/-- C6 counterexample: the claim allows k = N, but cropping the escape-free
two-character line ab at column 2 returns the single-space fallback, not the
empty suffix of the line. -/
theorem crop_full_width_cex :
    crop_line_for_scroll ['a', 'b'] 2 ≠ List.drop 2 ['a', 'b'] := by decide

/-- C6 (amended): for a line with no escape characters, visualWidth is the
character count, cropping at any column k strictly below that count yields
the last N − k characters, and cropping a non-empty such line at exactly its
width yields the single-space fallback instead of the empty suffix. -/
theorem crop_no_escape_spec (line : List Char) (h : escChar ∉ line) :
    visual_width line = line.length ∧
      (∀ k, k < line.length → crop_line_for_scroll line k = line.drop k) ∧
      (line ≠ [] → crop_line_for_scroll line line.length = [' ']) := by
  refine ⟨widthAux_false_no_escape line h, ?_, ?_⟩
  · intro k hk
    by_cases hk0 : k = 0
    · subst hk0
      unfold crop_line_for_scroll
      rw [if_pos rfl, List.drop_zero]
    · unfold crop_line_for_scroll
      rw [if_neg hk0]
      have hcrop : cropAux k line false [] 0 [] = line.drop k := by
        rw [cropAux_no_escape k line [] 0 [] h]
        simp
      have hne : line.drop k ≠ [] := by
        intro hnil
        have hlen : line.length ≤ k := by
          have := congrArg List.length hnil
          simp at this
          omega
        omega
      rw [hcrop, if_neg (fun hand => hne hand.1)]
  · intro hline
    have hlen : ¬ (line.length = 0) := fun h0 => hline (List.eq_nil_of_length_eq_zero h0)
    unfold crop_line_for_scroll
    rw [if_neg hlen]
    have hcrop : cropAux line.length line false [] 0 [] = [] := by
      rw [cropAux_no_escape line.length line [] 0 [] h]
      simp
    rw [hcrop, if_pos ⟨rfl, hline⟩]

/-- Witness for C6: concrete escape-free line ab with k = 1 below the width. -/
theorem crop_no_escape_holds :
    visual_width ['a', 'b'] = List.length ['a', 'b'] ∧
      crop_line_for_scroll ['a', 'b'] 1 = List.drop 1 ['a', 'b'] :=
  ⟨(crop_no_escape_spec ['a', 'b'] (by decide)).1,
   (crop_no_escape_spec ['a', 'b'] (by decide)).2.1 1 (by decide)⟩

/-- C7: cropping at any column at or beyond the visual width yields a result
of visual width 0 (possibly consisting only of styling runs), or the
single-space fallback. -/
theorem crop_beyond_width (line : List Char) (col : Nat)
    (h : visual_width line ≤ col) :
    visual_width (crop_line_for_scroll line col) = 0 ∨
      crop_line_for_scroll line col = [' '] := by
  unfold crop_line_for_scroll
  by_cases h0 : col = 0
  · rw [if_pos h0]
    left
    exact Nat.le_zero.mp (h0 ▸ h)
  · rw [if_neg h0]
    have hr : widthAux false (cropAux col line false [] 0 []) = 0 :=
      cropAux_width_eq_zero col line false [] 0 []
        (fun t => rfl) (fun hh => Bool.noConfusion hh) (by simpa [visual_width] using h)
    by_cases hc : cropAux col line false [] 0 [] = [] ∧ line ≠ []
    · rw [if_pos hc]
      right
      rfl
    · rw [if_neg hc]
      left
      exact hr

/-- Witness for C7: column 5 is beyond the width of the two-character line ab
and the crop collapses to the single-space fallback. -/
theorem crop_beyond_width_holds :
    visual_width (crop_line_for_scroll ['a', 'b'] 5) = 0 ∨
      crop_line_for_scroll ['a', 'b'] 5 = [' '] :=
  crop_beyond_width ['a', 'b'] 5 (by decide)

/-- C4: replacing the content with an equal content is a complete no-op on
the whole state; the equality test short-circuits before any re-clamping. -/
theorem update_content_noop (s : DisplayState) (c : List (List Char)) (w h : Nat)
    (hEq : c = s.content) : update_content s c w h = s := by
  unfold update_content
  rw [if_pos hEq]

/-- Witness for C4: both offsets sit far beyond every bound of the
one-line content in an 80×24 window, yet an identical refresh leaves them. -/
theorem update_content_noop_holds :
    update_content ⟨7, 9, [['a']], 0⟩ [['a']] 80 24 = ⟨7, 9, [['a']], 0⟩ :=
  update_content_noop ⟨7, 9, [['a']], 0⟩ [['a']] 80 24 rfl

/-- Advancing the reference instant happens in exact interval steps: after
any sequence of due-checks the reference equals the start plus the number of
true checks times the interval. -/
theorem run_checks_last_update (interval : Nat) (times : List Nat) :
    ∀ s : DisplayState, (run_checks s interval times).last_update =
      s.last_update + count_due s interval times * interval := by
  induction times with
  | nil => intro s; simp [run_checks, count_due]
  | cons t ts ih =>
      intro s
      rw [show run_checks s interval (t :: ts) =
            run_checks (should_update s t interval).2 interval ts from rfl,
        ih, show count_due s interval (t :: ts) =
            (if (should_update s t interval).1 then 1 else 0) +
              count_due (should_update s t interval).2 interval ts from rfl]
      unfold should_update
      by_cases hd : interval ≤ t - s.last_update
      · simp only [if_pos hd]
        simp
        ring
      · simp only [if_neg hd]
        simp

/-- C3: should_update returns true exactly when the elapsed time since the
reference instant reaches the interval, on a true result advances the
reference by exactly one interval, and consequently after any sequence of
checks the reference equals start plus (number of true checks)·interval. -/
theorem should_update_spec (s : DisplayState) (now interval : Nat) (times : List Nat) :
    (should_update s now interval).1 = decide (interval ≤ now - s.last_update) ∧
      (should_update s now interval).2.last_update =
        (if interval ≤ now - s.last_update then s.last_update + interval
         else s.last_update) ∧
      (run_checks s interval times).last_update =
        s.last_update + count_due s interval times * interval := by
  refine ⟨?_, ?_, run_checks_last_update interval times s⟩
  · unfold should_update
    by_cases hd : interval ≤ now - s.last_update
    · simp [hd]
    · simp [hd]
  · unfold should_update
    by_cases hd : interval ≤ now - s.last_update
    · simp [hd]
    · simp [hd]

/-- C2 counterexample: with interval 200ms, reference instant 0 and now
201ms, the refresh is strictly overdue; the claimed formula yields 0 but the
code computes the 100ms cap. -/
theorem poll_timeout_cex :
    poll_timeout 200 201 0 ≠ poll_timeout_spec 200 201 0 100 := by decide

/-- C2 (amended): the event-wait timeout equals
min(cap, interval − (now − referenceInstant)) with cap = 100ms whenever the
elapsed time is at most the interval — in particular it is 0 when the
refresh is exactly due — but when the refresh is strictly overdue the code
falls back to the full 100ms cap rather than 0. -/
theorem poll_timeout_eq (interval now last_update : Nat) :
    poll_timeout interval now last_update =
      (if now - last_update ≤ interval then poll_timeout_spec interval now last_update 100
       else 100) := by
  unfold poll_timeout poll_timeout_spec checked_sub
  by_cases hd : now - last_update ≤ interval
  · rw [if_pos hd, if_pos hd]
    simp [Nat.min_comm]
  · rw [if_neg hd, if_neg hd]
    simp

/-- C5: the visible slice is content[scroll_y .. min(scroll_y+height, len)]
with every line cropped at scroll_x, and the single placeholder line is
produced exactly when scroll_y is at or past the end of the content (for the
positive window heights the renderer always supplies). -/
theorem visible_lines_spec (s : DisplayState) (height : Nat) (hh : 1 ≤ height) :
    get_display_text s height =
      (if s.content.length ≤ s.scroll_y then [noContentLine]
       else ((s.content.drop s.scroll_y).take height).map
         (fun line => crop_line_for_scroll line s.scroll_x)) := by
  unfold get_display_text
  by_cases hc : s.content.length ≤ s.scroll_y
  · rw [if_pos (le_trans (min_le_right _ _) hc), if_pos hc]
  · have hcond : ¬ (min (s.scroll_y + height) s.content.length ≤ s.scroll_y) :=
      Nat.not_le.mpr (lt_min (by omega) (by omega))
    rw [if_neg hcond, if_neg hc]
    congr 1
    rcases Nat.le_total (s.scroll_y + height) s.content.length with hle | hge
    · rw [Nat.min_eq_left hle]
      congr 1
      omega
    · rw [Nat.min_eq_right hge]
      have hlen : (s.content.drop s.scroll_y).length = s.content.length - s.scroll_y := by
        simp
      rw [List.take_of_length_le (by rw [hlen]),
        List.take_of_length_le (by rw [hlen]; omega)]

/-- Witness for C5: the spec scenario — content [a, bb, ccc], height 2,
offsets (1,1) — displays [b, cc]. -/
theorem visible_lines_example :
    get_display_text ⟨1, 1, [['a'], ['b', 'b'], ['c', 'c', 'c']], 0⟩ 2 =
      [['b'], ['c', 'c']] :=
  (visible_lines_spec ⟨1, 1, [['a'], ['b', 'b'], ['c', 'c', 'c']], 0⟩ 2 (by decide)).trans
    (by decide)

/-- C8: handle_key_event reports true exactly on recognized navigation
commands — even when saturation leaves the offset unchanged — and on every
unrecognized command it reports false and leaves the state untouched. -/
theorem handle_key_event_spec (s : DisplayState) (ev : KeyEv) (w h : Nat) :
    (handle_key_event s ev w h).1 = isRecognized ev ∧
      (isRecognized ev = false → handle_key_event s ev w h = (false, s)) := by
  obtain ⟨code, ctrl, press⟩ := ev
  cases press <;> cases code <;> cases ctrl <;> simp [handle_key_event, isRecognized]

/-- Witness for C8: the unrecognized q key leaves the state unchanged, and a
Down at the already-saturated vertical bound still reports true. -/
theorem handle_key_event_holds :
    handle_key_event ⟨0, 0, [['a']], 0⟩ ⟨KeyCode.char 'q', false, true⟩ 80 24 =
        (false, ⟨0, 0, [['a']], 0⟩) ∧
      (handle_key_event ⟨0, 0, [['a']], 0⟩ ⟨KeyCode.down, false, true⟩ 80 24).1 = true :=
  ⟨(handle_key_event_spec ⟨0, 0, [['a']], 0⟩ ⟨KeyCode.char 'q', false, true⟩ 80 24).2 rfl,
   by rw [(handle_key_event_spec ⟨0, 0, [['a']], 0⟩ ⟨KeyCode.down, false, true⟩ 80 24).1]
      rfl⟩

/-- Push loops of read_content rewritten as filter/map: stderr variant. -/
theorem foldl_push_filter (f : List Char → List Char) (xs : List (List Char)) :
    ∀ init : List (List Char),
      xs.foldl (fun acc line => if isBlank line then acc else acc ++ [f line]) init =
        init ++ (xs.filter (fun line => !isBlank line)).map f := by
  induction xs with
  | nil => intro init; simp
  | cons x xs ih =>
      intro init
      cases hpx : isBlank x <;>
        simp [List.foldl_cons, List.filter_cons, hpx, ih]

/-- Push loops of read_content rewritten as filter/map: stdout variant. -/
theorem foldl_push_filter_id (xs : List (List Char)) :
    ∀ init : List (List Char),
      xs.foldl (fun acc line => if isBlank line then acc else acc ++ [line]) init =
        init ++ xs.filter (fun line => !isBlank line) := by
  induction xs with
  | nil => intro init; simp
  | cons x xs ih =>
      intro init
      cases hpx : isBlank x <;>
        simp [List.foldl_cons, List.filter_cons, hpx, ih]

/-- C9: the content produced from a command source is never empty — blank
lines are dropped, each remaining stderr line is wrapped in the red escape
pair and appended after all stdout lines, and when nothing remains a single
fallback line is produced. -/
theorem read_content_cmd_spec (stdoutLines stderrLines : List (List Char)) :
    read_content_cmd stdoutLines stderrLines ≠ [] ∧
      read_content_cmd stdoutLines stderrLines =
        (if stdoutLines.filter (fun l => !isBlank l) ++
              (stderrLines.filter (fun l => !isBlank l)).map wrapRed = []
         then [cmdNoOutput]
         else stdoutLines.filter (fun l => !isBlank l) ++
              (stderrLines.filter (fun l => !isBlank l)).map wrapRed) := by
  have heq : read_content_cmd stdoutLines stderrLines =
      (if stdoutLines.filter (fun l => !isBlank l) ++
            (stderrLines.filter (fun l => !isBlank l)).map wrapRed = []
       then [cmdNoOutput]
       else stdoutLines.filter (fun l => !isBlank l) ++
            (stderrLines.filter (fun l => !isBlank l)).map wrapRed) := by
    unfold read_content_cmd
    rw [foldl_push_filter_id stdoutLines [], foldl_push_filter wrapRed stderrLines _]
    simp
  refine ⟨?_, heq⟩
  rw [heq]
  by_cases hif : stdoutLines.filter (fun l => !isBlank l) ++
      (stderrLines.filter (fun l => !isBlank l)).map wrapRed = []
  · rw [if_pos hif]
    simp
  · rw [if_neg hif]
    exact hif

/-! Bounds comparison lemmas between the u16 code bounds and the spec §3
bounds, and the viewport invariant. -/

theorem foldr_max_map_mod_le (content : List (List Char)) :
    (content.map (fun l => visual_width l % 65536)).foldr Nat.max 0 ≤
      (content.map visual_width).foldr Nat.max 0 := by
  induction content with
  | nil => simp
  | cons l ls ih =>
      simp only [List.map_cons, List.foldr_cons]
      exact max_le_max (Nat.mod_le _ _) ih

theorem max_scroll_y_code_le (c : List (List Char)) (h : Nat) :
    max_scroll_y_code c h ≤ max_scroll_y_spec c h := Nat.mod_le _ _

theorem max_scroll_x_code_le (c : List (List Char)) (w : Nat) :
    max_scroll_x_code c w ≤ max_scroll_x_spec c w :=
  Nat.sub_le_sub_right (foldr_max_map_mod_le c) w

theorem handle_key_preserves (st : DisplayState) (ev : KeyEv) (w h : Nat)
    (hb : inBounds st w h) : inBounds (handle_key_event st ev w h).2 w h := by
  obtain ⟨hy, hx⟩ := hb
  have hys := max_scroll_y_code_le st.content h
  have hxs := max_scroll_x_code_le st.content w
  obtain ⟨code, ctrl, press⟩ := ev
  cases press
  case false => exact ⟨hy, hx⟩
  case true =>
    cases code with
    | up => exact ⟨le_trans (Nat.sub_le _ _) hy, hx⟩
    | down => exact ⟨le_trans (min_le_right _ _) hys, hx⟩
    | pageUp => exact ⟨le_trans (Nat.sub_le _ _) hy, hx⟩
    | pageDown => exact ⟨le_trans (min_le_right _ _) hys, hx⟩
    | left => exact ⟨hy, le_trans (Nat.sub_le _ _) hx⟩
    | right => exact ⟨hy, le_trans (min_le_right _ _) hxs⟩
    | home =>
        cases ctrl
        case false => exact ⟨hy, Nat.zero_le _⟩
        case true => exact ⟨Nat.zero_le _, hx⟩
    | end_ =>
        cases ctrl
        case false => exact ⟨hy, hxs⟩
        case true => exact ⟨hys, hx⟩
    | char c => exact ⟨hy, hx⟩
    | other => exact ⟨hy, hx⟩

theorem update_content_preserves (st : DisplayState) (c : List (List Char)) (w h : Nat)
    (hb : inBounds st w h) : inBounds (update_content st c w h) w h := by
  unfold update_content
  by_cases he : c = st.content
  · rw [if_pos he]
    exact hb
  · rw [if_neg he]
    exact ⟨le_trans (min_le_right _ _) (max_scroll_y_code_le c h),
      le_trans (min_le_right _ _) (max_scroll_x_code_le c w)⟩

/-- C1 counterexample: from ten one-character lines in a height-2 window,
Ctrl+End saturates scroll_y at 8; a window-size change to height 9 is a step
after which the current bound is 1, but no re-clamp happens, so the §3
invariant is violated. -/
theorem viewport_bounds_cex :
    ¬ inBounds
        (runWorld ⟨⟨0, 0, List.replicate 10 ['a'], 0⟩, 5, 2⟩
          [Step.nav ⟨KeyCode.end_, true, true⟩, Step.resize 5 9]).st 5 9 := by
  decide

/-- C1 (amended): for every sequence of navigation commands and content
replacements at a fixed visible-window size, starting from a state within
the §3 bounds, the bounds hold against the current content and window after
each step; window-size changes are excluded because the code re-clamps only
on content-changing replacements, so a resize alone can leave the offsets
out of bounds. -/
theorem viewport_bounds_fixed_window (w h : Nat) (steps : List Step) :
    ∀ st : DisplayState, (∀ sp ∈ steps, noResizeB sp = true) → inBounds st w h →
      inBounds (runWorld ⟨st, w, h⟩ steps).st w h := by
  induction steps with
  | nil => intro st _ hb; exact hb
  | cons sp ss ih =>
      intro st hnr hb
      have hhd : noResizeB sp = true := hnr sp (List.mem_cons_self sp ss)
      have htl : ∀ q ∈ ss, noResizeB q = true := fun q hq => hnr q (List.mem_cons_of_mem sp hq)
      cases sp with
      | nav ev => exact ih _ htl (handle_key_preserves st ev w h hb)
      | replace c => exact ih _ htl (update_content_preserves st c w h hb)
      | resize a b => exact Bool.noConfusion hhd

/-- Witness for C1 (amended): a Down then a replacement at a fixed 2×2
window keep the offsets in bounds. -/
theorem viewport_bounds_fixed_window_holds :
    inBounds
      (runWorld ⟨⟨0, 0, [['a'], ['b', 'b']], 0⟩, 2, 2⟩
        [Step.nav ⟨KeyCode.down, false, true⟩, Step.replace [['x']]]).st 2 2 :=
  viewport_bounds_fixed_window 2 2
    [Step.nav ⟨KeyCode.down, false, true⟩, Step.replace [['x']]]
    ⟨0, 0, [['a'], ['b', 'b']], 0⟩ (by decide) (by decide)

/-! u16 truncation behaviour of the scroll bounds (C10). -/

theorem mem_le_foldr_max (xs : List Nat) : ∀ x ∈ xs, x ≤ xs.foldr Nat.max 0 := by
  induction xs with
  | nil => intro x hx; cases hx
  | cons a as ih =>
      intro x hx
      rcases List.mem_cons.1 hx with rfl | hmem
      · exact Nat.le_max_left _ _
      · exact le_trans (ih x hmem) (Nat.le_max_right _ _)

theorem visual_width_replicate_a (n : Nat) : visual_width (List.replicate n 'a') = n := by
  rw [visual_width, widthAux_false_no_escape]
  · exact List.length_replicate n 'a'
  · intro hm
    exact absurd (List.eq_of_mem_replicate hm) (by decide)

theorem max_scroll_x_code_pair (l1 l2 : List Char) (w : Nat) :
    max_scroll_x_code [l1, l2] w =
      Nat.max (visual_width l1 % 65536) (Nat.max (visual_width l2 % 65536) 0) - w := rfl

theorem max_scroll_x_spec_pair (l1 l2 : List Char) (w : Nat) :
    max_scroll_x_spec [l1, l2] w =
      Nat.max (visual_width l1) (Nat.max (visual_width l2) 0) - w := rfl

/-- C10 counterexample: for content whose widest line has 2^16 characters
next to a 5-character line, in a width-3 window, the horizontal code bound
is 5 − 3 = 2 because each line width is truncated to u16 before the maximum
is taken, while the §3 formula reduced modulo 2^16 gives 65533. -/
theorem scroll_bounds_u16_cex :
    max_scroll_x_code [List.replicate 65536 'a', List.replicate 5 'a'] 3 ≠
      max_scroll_x_spec [List.replicate 65536 'a', List.replicate 5 'a'] 3 % 65536 := by
  rw [max_scroll_x_code_pair, max_scroll_x_spec_pair,
    visual_width_replicate_a, visual_width_replicate_a]
  decide

/-- C10 (amended): the vertical code bound is the §3 vertical bound reduced
modulo 2^16 and agrees with it exactly whenever the line count is below
2^16; the horizontal code bound truncates each line width modulo 2^16
before taking the maximum and subtracting the window width, and agrees with
the §3 horizontal bound exactly whenever the maximum visual width is below
2^16. -/
theorem scroll_bounds_u16 (content : List (List Char)) (w h : Nat) :
    (content.length < 65536 → max_scroll_y_code content h = max_scroll_y_spec content h) ∧
      ((content.map visual_width).foldr Nat.max 0 < 65536 →
        max_scroll_x_code content w = max_scroll_x_spec content w) ∧
      max_scroll_y_code content h = max_scroll_y_spec content h % 65536 ∧
      max_scroll_x_code content w =
        ((content.map (fun l => visual_width l % 65536)).foldr Nat.max 0) - w := by
  refine ⟨?_, ?_, rfl, rfl⟩
  · intro hlen
    unfold max_scroll_y_code max_scroll_y_spec
    exact Nat.mod_eq_of_lt (by omega)
  · intro hw
    unfold max_scroll_x_code max_scroll_x_spec
    have hmap : content.map (fun l => visual_width l % 65536) = content.map visual_width := by
      apply List.map_congr_left
      intro l hl
      exact Nat.mod_eq_of_lt
        (lt_of_le_of_lt (mem_le_foldr_max _ _ (List.mem_map_of_mem visual_width hl)) hw)
    rw [hmap]

/-- Witness for C10 (amended): a single two-character line is far below the
u16 limits, so both code bounds agree with the §3 bounds. -/
theorem scroll_bounds_u16_holds :
    max_scroll_y_code [['a', 'b']] 1 = max_scroll_y_spec [['a', 'b']] 1 ∧
      max_scroll_x_code [['a', 'b']] 1 = max_scroll_x_spec [['a', 'b']] 1 :=
  ⟨(scroll_bounds_u16 [['a', 'b']] 1 1).1 (by decide),
   (scroll_bounds_u16 [['a', 'b']] 1 1).2.1 (by decide)⟩

end Grain
